import Mathlib

/-!
Formal model of the Nebula Notes application: the note data model, the
local-storage persistence layer, the sidebar search filter, the editor's
tag operations, AI-result splicing and debounced-commit protocol, and the
Gemini text-service client, together with theorems settling the stated
behavioural claims.

Sources modelled: `src/types.ts`, `src/App.tsx`, `src/components/Sidebar.tsx`,
`src/components/Editor.tsx`, `src/services/gemini.ts`.
-/

/-- A note record, from `src/types.ts` (`interface Note`).  Timestamps are
JavaScript epoch-millisecond integers, modelled as `Nat`. -/
structure Note where
  id : String
  title : String
  content : String
  tags : List String
  createdAt : Nat
  updatedAt : Nat
deriving Repr, DecidableEq

/-- The five AI action kinds, from `src/types.ts` (`type AIActionType`). -/
inductive AIActionType where
  | summarize
  | fix_grammar
  | generate_tags
  | elaborate
  | generate_title
deriving Repr, DecidableEq

/-!
Persistence.  `src/App.tsx` persists the whole collection with
`localStorage.setItem('nebula-notes', JSON.stringify(notes))` and loads it
with `JSON.parse`.  `JSON.stringify` / `JSON.parse` are host builtins, not
repository code, so they are modelled here from the spec: the persisted
value is "the full serialized Note Collection (array of Note records with
fields id/title/content/tags/createdAt/updatedAt)".  The encoder below
emits exactly the canonical JSON text `JSON.stringify` produces for
well-formed notes (strings whose characters are printable or one of
newline / tab / carriage-return), and the decoder accepts that canonical
form, failing (as `JSON.parse` throws) on malformed input.
-/

/-- Canonical JSON escape of one character, as `JSON.stringify` emits it for
well-formed characters. -/
def escChar (c : Char) : List Char :=
  if c = '"' then ['\\', '"']
  else if c = '\\' then ['\\', '\\']
  else if c = '\n' then ['\\', 'n']
  else if c = '\t' then ['\\', 't']
  else if c = '\r' then ['\\', 'r']
  else [c]

/-- A character the canonical encoder is char-exact for: printable, or one
of newline / tab / carriage-return. -/
def wellFormedChar (c : Char) : Bool :=
  32 ≤ c.toNat || c = '\n' || c = '\t' || c = '\r'

def wellFormedString (s : String) : Bool :=
  s.data.all wellFormedChar

def wellFormedNote (n : Note) : Bool :=
  wellFormedString n.id && wellFormedString n.title &&
    wellFormedString n.content && n.tags.all wellFormedString

def wellFormedNotes (l : List Note) : Bool :=
  l.all wellFormedNote

/-- JSON string literal for `s` (opening quote, escaped body, closing quote). -/
def encString (s : String) : List Char :=
  '"' :: (s.data.flatMap escChar ++ ['"'])

/-- Decimal digits of `n`, as JSON renders a nonnegative integer. -/
def natDigits (n : Nat) : List Char :=
  if h : n < 10 then [Char.ofNat (48 + n)]
  else natDigits (n / 10) ++ [Char.ofNat (48 + n % 10)]
decreasing_by exact Nat.div_lt_self (by omega) (by omega)

/-- JSON array of string literals (the `tags` field). -/
def encTags (l : List String) : List Char :=
  match l with
  | [] => ['[', ']']
  | x :: xs => '[' :: (encString x ++ ((xs.flatMap fun s => ',' :: encString s) ++ [']']))

/-- Canonical JSON object for one note, field order as the records are built
in `src/App.tsx`. -/
def encNote (n : Note) : List Char :=
  "\x7b\"id\":".data ++ (encString n.id ++
    (",\"title\":".data ++ (encString n.title ++
      (",\"content\":".data ++ (encString n.content ++
        (",\"tags\":".data ++ (encTags n.tags ++
          (",\"createdAt\":".data ++ (natDigits n.createdAt ++
            (",\"updatedAt\":".data ++ (natDigits n.updatedAt ++
              "\x7d".data)))))))))))

/-- Canonical JSON array for the whole collection. -/
def encNotes (l : List Note) : List Char :=
  match l with
  | [] => ['[', ']']
  | x :: xs => '[' :: (encNote x ++ ((xs.flatMap fun n => ',' :: encNote n) ++ [']']))

/-- Model of `JSON.stringify(notes)`. -/
def stringifyNotes (l : List Note) : String :=
  ⟨encNotes l⟩

/-- Expect the literal `lit` as a prefix of the input; return the remainder. -/
def pLit : List Char → List Char → Option (List Char)
  | [], input => some input
  | _ :: _, [] => none
  | c :: cs, d :: ds => if c = d then pLit cs ds else none

/-- Decode one escape character (the canonical escapes only). -/
def unescChar (e : Char) : Option Char :=
  if e = '"' then some '"'
  else if e = '\\' then some '\\'
  else if e = 'n' then some '\n'
  else if e = 't' then some '\t'
  else if e = 'r' then some '\r'
  else none

/-- Parse a string body after the opening quote, up to the closing quote. -/
def pStringBody (l : List Char) : Option (List Char × List Char) :=
  match l with
  | [] => none
  | c :: rest =>
    if c = '"' then some ([], rest)
    else if c = '\\' then
      match rest with
      | [] => none
      | e :: rest' =>
        match unescChar e with
        | none => none
        | some d =>
          match pStringBody rest' with
          | none => none
          | some (s, r) => some (d :: s, r)
    else
      match pStringBody rest with
      | none => none
      | some (s, r) => some (c :: s, r)

/-- Parse a JSON string literal. -/
def pString (l : List Char) : Option (String × List Char) :=
  match l with
  | [] => none
  | c :: rest =>
    if c = '"' then
      match pStringBody rest with
      | none => none
      | some (s, r) => some (⟨s⟩, r)
    else none

/-- Accumulate decimal digits. -/
def pNatAux : List Char → Nat → Nat × List Char
  | [], acc => (acc, [])
  | c :: rest, acc =>
    if c.isDigit then pNatAux rest (acc * 10 + (c.toNat - 48)) else (acc, c :: rest)

/-- Parse a nonnegative decimal integer (at least one digit). -/
def pNat (l : List Char) : Option (Nat × List Char) :=
  match l with
  | [] => none
  | c :: _ => if c.isDigit then some (pNatAux l 0) else none

/-- Parse the tail of a string array: `]` or `,` followed by a string
literal, repeatedly.  Fuel bounds the number of elements. -/
def pTagsAux : Nat → List Char → Option (List String × List Char)
  | 0, l =>
    match l with
    | [] => none
    | c :: rest => if c = ']' then some ([], rest) else none
  | fuel + 1, l =>
    match l with
    | [] => none
    | c :: rest =>
      if c = ']' then some ([], rest)
      else if c = ',' then
        match pString rest with
        | none => none
        | some (s, r) =>
          match pTagsAux fuel r with
          | none => none
          | some (ss, r') => some (s :: ss, r')
      else none

/-- Parse a JSON array of string literals. -/
def pTags (l : List Char) : Option (List String × List Char) :=
  match l with
  | [] => none
  | c :: rest =>
    if c = '[' then
      match rest with
      | [] => none
      | d :: rest' =>
        if d = ']' then some ([], rest')
        else
          match pString rest with
          | none => none
          | some (s, r) =>
            match pTagsAux r.length r with
            | none => none
            | some (ss, r') => some (s :: ss, r')
    else none

/-- Parse one canonical note object. -/
def pNote (l : List Char) : Option (Note × List Char) :=
  match pLit "\x7b\"id\":".data l with
  | none => none
  | some r1 =>
  match pString r1 with
  | none => none
  | some (i, r2) =>
  match pLit ",\"title\":".data r2 with
  | none => none
  | some r3 =>
  match pString r3 with
  | none => none
  | some (t, r4) =>
  match pLit ",\"content\":".data r4 with
  | none => none
  | some r5 =>
  match pString r5 with
  | none => none
  | some (co, r6) =>
  match pLit ",\"tags\":".data r6 with
  | none => none
  | some r7 =>
  match pTags r7 with
  | none => none
  | some (tg, r8) =>
  match pLit ",\"createdAt\":".data r8 with
  | none => none
  | some r9 =>
  match pNat r9 with
  | none => none
  | some (ca, r10) =>
  match pLit ",\"updatedAt\":".data r10 with
  | none => none
  | some r11 =>
  match pNat r11 with
  | none => none
  | some (ua, r12) =>
  match pLit "\x7d".data r12 with
  | none => none
  | some r13 => some (⟨i, t, co, tg, ca, ua⟩, r13)

/-- Parse the tail of the notes array, fuel-bounded like `pTagsAux`. -/
def pNotesAux : Nat → List Char → Option (List Note × List Char)
  | 0, l =>
    match l with
    | [] => none
    | c :: rest => if c = ']' then some ([], rest) else none
  | fuel + 1, l =>
    match l with
    | [] => none
    | c :: rest =>
      if c = ']' then some ([], rest)
      else if c = ',' then
        match pNote rest with
        | none => none
        | some (n, r) =>
          match pNotesAux fuel r with
          | none => none
          | some (ns, r') => some (n :: ns, r')
      else none

/-- Parse the canonical JSON array of notes. -/
def pNotes (l : List Char) : Option (List Note × List Char) :=
  match l with
  | [] => none
  | c :: rest =>
    if c = '[' then
      match rest with
      | [] => none
      | d :: rest' =>
        if d = ']' then some ([], rest')
        else
          match pNote rest with
          | none => none
          | some (n, r) =>
            match pNotesAux r.length r with
            | none => none
            | some (ns, r') => some (n :: ns, r')
    else none

/-- Model of `JSON.parse` specialised to the persisted shape: succeeds
exactly on the canonical serialisation, consuming the whole input. -/
def parseNotes (s : String) : Option (List Note) :=
  match pNotes s.data with
  | some (ns, []) => some ns
  | _ => none

/-- Storage state after `persist`: the value under the fixed key. -/
def persistNotes (l : List Note) : Option String :=
  some (stringifyNotes l)

/-- The seed collection from `src/App.tsx` (`INITIAL_NOTES`); `now` models
`Date.now()` at module initialisation. -/
def INITIAL_NOTES (now : Nat) : List Note :=
  [{ id := "1",
     title := "Welcome to Nebula Notes",
     content := "This is a smart note-taking app powered by Gemini. \n\nTry selecting this text and using the \"AI Tools\" button to summarize or expand it.\n\nYou can also automatically generate tags based on your content.",
     tags := ["welcome", "tutorial"],
     createdAt := now,
     updatedAt := now }]

/-- The `useState` initialiser of `src/App.tsx` lines 20-23: read the value
under the storage key; when absent fall back to the seed; `JSON.parse`
throwing on malformed input is modelled as `Except.error`. -/
def loadNotes (now : Nat) (stored : Option String) : Except String (List Note) :=
  match stored with
  | none => .ok (INITIAL_NOTES now)
  | some s =>
    match parseNotes s with
    | some ns => .ok ns
    | none => .error "SyntaxError: unexpected token in JSON"

theorem pLit_append (lit rest : List Char) : pLit lit (lit ++ rest) = some rest := by
  induction lit with
  | nil => rfl
  | cons c cs ih => simp [pLit, ih]

theorem pStringBody_enc (cs : List Char) (rest : List Char) :
    pStringBody (cs.flatMap escChar ++ ('"' :: rest)) = some (cs, rest) := by
  induction cs with
  | nil => simp only [List.flatMap_nil, List.nil_append]; rw [pStringBody.eq_def]; rfl
  | cons c cs ih =>
    by_cases h1 : c = '"'
    · simp [escChar, h1, pStringBody, unescChar, ih]
    · by_cases h2 : c = '\\'
      · simp [escChar, h1, h2, pStringBody, unescChar, ih]
      · by_cases h3 : c = '\n'
        · simp [escChar, h1, h2, h3, pStringBody, unescChar, ih]
        · by_cases h4 : c = '\t'
          · simp [escChar, h1, h2, h3, h4, pStringBody, unescChar, ih]
          · by_cases h5 : c = '\r'
            · simp [escChar, h1, h2, h3, h4, h5, pStringBody, unescChar, ih]
            · simp only [List.flatMap_cons, escChar, if_neg h1, if_neg h2, if_neg h3,
                if_neg h4, if_neg h5, List.singleton_append, List.cons_append]
              rw [pStringBody.eq_def]
              simp only [List.nil_append, if_neg h1, if_neg h2, ih]

theorem pString_enc (s : String) (rest : List Char) :
    pString (encString s ++ rest) = some (s, rest) := by
  obtain ⟨cs⟩ := s
  simp [encString, pString, List.append_assoc, pStringBody_enc]

/-- The head of `l` (if any) is not a decimal digit, so `pNatAux` stops. -/
def headNotDigit (l : List Char) : Prop :=
  ∀ c t, l = c :: t → c.isDigit = false

theorem pNatAux_stop (l : List Char) (acc : Nat) (h : headNotDigit l) :
    pNatAux l acc = (acc, l) := by
  cases l with
  | nil => rfl
  | cons c t => simp [pNatAux, h c t rfl]

theorem digitChar_isDigit {d : Nat} (h : d < 10) :
    (Char.ofNat (48 + d)).isDigit = true := by
  interval_cases d <;> decide

theorem digitChar_toNat {d : Nat} (h : d < 10) :
    (Char.ofNat (48 + d)).toNat - 48 = d := by
  interval_cases d <;> decide

theorem pNatAux_digits (n : Nat) : ∀ (acc : Nat) (rest : List Char),
    pNatAux (natDigits n ++ rest) acc =
      pNatAux rest (acc * 10 ^ (natDigits n).length + n) := by
  induction n using Nat.strong_induction_on with
  | _ n ih =>
    intro acc rest
    by_cases h : n < 10
    · rw [natDigits, dif_pos h]
      simp [pNatAux, digitChar_isDigit h, digitChar_toNat h]
    · rw [natDigits, dif_neg h]
      have hd : n / 10 < n := Nat.div_lt_self (by omega) (by omega)
      have hm : n % 10 < 10 := Nat.mod_lt _ (by omega)
      rw [List.append_assoc, List.cons_append, List.nil_append, ih _ hd]
      rw [pNatAux]
      simp only [digitChar_isDigit hm, if_pos, digitChar_toNat hm]
      have hlen : (natDigits (n / 10) ++ [Char.ofNat (48 + n % 10)]).length =
          (natDigits (n / 10)).length + 1 := by simp
      rw [hlen]
      have harith : (acc * 10 ^ (natDigits (n / 10)).length + n / 10) * 10 + n % 10 =
          acc * 10 ^ ((natDigits (n / 10)).length + 1) + n := by
        rw [pow_succ]
        have hdm : n / 10 * 10 + n % 10 = n := by omega
        calc (acc * 10 ^ (natDigits (n / 10)).length + n / 10) * 10 + n % 10
            = acc * (10 ^ (natDigits (n / 10)).length * 10) + (n / 10 * 10 + n % 10) := by
              ring
          _ = acc * (10 ^ (natDigits (n / 10)).length * 10) + n := by rw [hdm]
      rw [harith]

theorem natDigits_all_digit (n : Nat) : (natDigits n).all Char.isDigit = true := by
  induction n using Nat.strong_induction_on with
  | _ n ih =>
    by_cases h : n < 10
    · rw [natDigits, dif_pos h]
      simp [digitChar_isDigit h]
    · rw [natDigits, dif_neg h]
      have hd : n / 10 < n := Nat.div_lt_self (by omega) (by omega)
      have hm : n % 10 < 10 := Nat.mod_lt _ (by omega)
      simp [ih _ hd, digitChar_isDigit hm]

theorem natDigits_ne_nil (n : Nat) : natDigits n ≠ [] := by
  by_cases h : n < 10
  · rw [natDigits, dif_pos h]; simp
  · rw [natDigits, dif_neg h]; simp

theorem pNat_enc (n : Nat) (rest : List Char) (h : headNotDigit rest) :
    pNat (natDigits n ++ rest) = some (n, rest) := by
  obtain ⟨c, t, hct⟩ : ∃ c t, natDigits n = c :: t := by
    cases hnd : natDigits n with
    | nil => exact absurd hnd (natDigits_ne_nil n)
    | cons c t => exact ⟨c, t, rfl⟩
  have hcd : c.isDigit = true := by
    have := natDigits_all_digit n
    rw [hct] at this
    simp [List.all_cons] at this
    exact this.1
  rw [hct, List.cons_append, pNat]
  simp only [hcd, if_pos]
  rw [← List.cons_append, ← hct, pNatAux_digits, pNatAux_stop _ _ h]
  simp

theorem length_le_flatMap_comma {α : Type} (f : α → List Char) (xs : List α) :
    xs.length ≤ (xs.flatMap fun s => ',' :: f s).length := by
  induction xs with
  | nil => simp
  | cons x xs ih => simp only [List.flatMap_cons, List.length_append,
      List.length_cons, List.length_cons]; omega

theorem pTagsAux_enc (xs : List String) : ∀ (fuel : Nat) (rest : List Char),
    xs.length ≤ fuel →
    pTagsAux fuel ((xs.flatMap fun s => ',' :: encString s) ++ (']' :: rest)) =
      some (xs, rest) := by
  induction xs with
  | nil =>
    intro fuel rest _
    cases fuel with
    | zero => simp [pTagsAux]
    | succ f => simp [pTagsAux]
  | cons x xs ih =>
    intro fuel rest hf
    cases fuel with
    | zero => simp at hf
    | succ f =>
      have hxs : xs.length ≤ f := by simpa using hf
      simp only [List.flatMap_cons, List.cons_append, List.append_assoc]
      rw [pTagsAux]
      simp [pString_enc, ih f rest hxs]

theorem pString_enc2 (s : String) (rest : List Char) :
    pString ('"' :: (s.data.flatMap escChar ++ ('"' :: rest))) = some (s, rest) := by
  have := pString_enc s rest
  simpa [encString, List.cons_append, List.append_assoc] using this

theorem pTags_enc (xs : List String) (rest : List Char) :
    pTags (encTags xs ++ rest) = some (xs, rest) := by
  cases xs with
  | nil => simp [encTags, pTags]
  | cons x xs =>
    have hx : ∀ Y : List Char,
        encString x ++ Y = '"' :: (x.data.flatMap escChar ++ ('"' :: Y)) := by
      intro Y; simp [encString]
    have hb : xs.length ≤
        ((xs.flatMap fun s => ',' :: encString s) ++ (']' :: rest)).length := by
      have := length_le_flatMap_comma encString xs
      simp only [List.length_append]; omega
    simp only [encTags, List.cons_append, List.append_assoc, List.singleton_append]
    rw [hx, pTags.eq_def]
    simp only [pString_enc2]
    simp
    have h1 := length_le_flatMap_comma encString xs
    have h2 : ((xs.flatMap fun s => ',' :: encString s)).length
        = (List.map (List.length ∘ fun s => ',' :: encString s) xs).sum := by
      simp
    rw [pTagsAux_enc xs
      ((List.map (List.length ∘ fun s => ',' :: encString s) xs).sum + (rest.length + 1))
      rest (by omega)]

theorem pNote_enc (nt : Note) (rest : List Char) :
    pNote (encNote nt ++ rest) = some (nt, rest) := by
  obtain ⟨i, t, co, tg, ca, ua⟩ := nt
  have h1 : ∀ s : List Char, pNat (natDigits ca ++ (",\"updatedAt\":".data ++ s))
      = some (ca, ",\"updatedAt\":".data ++ s) := by
    intro s
    apply pNat_enc
    intro c cs h
    rw [show ",\"updatedAt\":".data = ',' :: "\"updatedAt\":".data from rfl,
      List.cons_append] at h
    cases h
    decide
  have h2 : ∀ s : List Char, pNat (natDigits ua ++ ("\x7d".data ++ s))
      = some (ua, "\x7d".data ++ s) := by
    intro s
    apply pNat_enc
    intro c cs h
    rw [show "\x7d".data = [Char.ofNat 125] from rfl, List.cons_append] at h
    cases h
    decide
  simp only [List.cons_append, List.nil_append] at h1 h2
  simp [pNote, encNote, List.append_assoc, pLit, pLit_append, pString_enc, pTags_enc,
    h1, h2]

theorem pNotesAux_enc (xs : List Note) : ∀ (fuel : Nat) (rest : List Char),
    xs.length ≤ fuel →
    pNotesAux fuel ((xs.flatMap fun n => ',' :: encNote n) ++ (']' :: rest)) =
      some (xs, rest) := by
  induction xs with
  | nil =>
    intro fuel rest _
    cases fuel with
    | zero => simp [pNotesAux]
    | succ f => simp [pNotesAux]
  | cons x xs ih =>
    intro fuel rest hf
    cases fuel with
    | zero => simp at hf
    | succ f =>
      have hxs : xs.length ≤ f := by simpa using hf
      simp only [List.flatMap_cons, List.cons_append, List.append_assoc]
      rw [pNotesAux]
      simp [pNote_enc, ih f rest hxs]

theorem pNotes_enc (xs : List Note) (rest : List Char) :
    pNotes (encNotes xs ++ rest) = some (xs, rest) := by
  cases xs with
  | nil => simp [encNotes, pNotes]
  | cons x xs =>
    have hnote : ∀ Y : List Char, pNote (encNote x ++ Y) = some (x, Y) := pNote_enc x
    simp only [encNote, List.append_assoc] at hnote
    simp at hnote
    have hb : xs.length ≤
        ((xs.flatMap fun n => ',' :: encNote n) ++ (']' :: rest)).length := by
      have := length_le_flatMap_comma encNote xs
      simp only [List.length_append]; omega
    have haux := pNotesAux_enc xs
      ((xs.flatMap fun n => ',' :: encNote n) ++ (']' :: rest)).length rest hb
    simp only [encNotes, List.cons_append, List.append_assoc]
    rw [pNotes.eq_def]
    simp [encNote, List.append_assoc, hnote]
    simp [encNote, List.append_assoc] at haux
    rw [haux]

/-- Parsing inverts serialisation on any collection. -/
theorem parseNotes_stringifyNotes (l : List Note) :
    parseNotes (stringifyNotes l) = some l := by
  have h := pNotes_enc l []
  rw [List.append_nil] at h
  simp [parseNotes, stringifyNotes, h]

/-!
Note Store operations, from `src/App.tsx`.
-/

/-- `deleteNote` from `src/App.tsx` lines 54-61: remove the matching entry,
and when the deleted note was selected, select the first remaining note
(or none).  Returns the new collection and the new selection. -/
def deleteNote (notes : List Note) (activeNoteId : Option String) (id : String) :
    List Note × Option String :=
  let newNotes := notes.filter fun n => n.id ≠ id
  (newNotes,
    if activeNoteId = some id then newNotes.head?.map Note.id else activeNoteId)

/-!
Host string helpers.  JavaScript `trim` and `toLowerCase` are host
builtins; they are modelled over the character list (whitespace here being
space, newline, tab, carriage-return, and lowercasing being ASCII
case-mapping, the range the repository's data exercises).
-/

/-- A whitespace character as JavaScript `trim` strips it. -/
def isJsSpace (c : Char) : Bool :=
  c = ' ' || c = '\n' || c = '\t' || c = '\r'

/-- JavaScript `s.trim()`. -/
def jsTrim (s : String) : String :=
  ⟨(((s.data.dropWhile isJsSpace).reverse.dropWhile isJsSpace).reverse)⟩

/-- JavaScript `s.toLowerCase()`. -/
def jsToLower (s : String) : String :=
  ⟨s.data.map Char.toLower⟩

/-!
List/Search View, from `src/components/Sidebar.tsx` lines 29-38.
-/

/-- Is `needle` a prefix of `haystack`? -/
def isPrefixList (needle haystack : List Char) : Bool :=
  match needle, haystack with
  | [], _ => true
  | _ :: _, [] => false
  | c :: cs, d :: ds => c = d && isPrefixList cs ds

/-- Does `needle` occur contiguously inside `haystack`? -/
def hasInfix (haystack needle : List Char) : Bool :=
  match haystack with
  | [] => isPrefixList needle []
  | _ :: t => isPrefixList needle haystack || hasInfix t needle

/-- JavaScript `haystack.includes(needle)`: substring containment. -/
def jsIncludes (haystack needle : String) : Bool :=
  hasInfix haystack.data needle.data

/-- The filter predicate applied to one note for a (already lowercased)
query. -/
def noteMatches (lowerQuery : String) (n : Note) : Bool :=
  jsIncludes (jsToLower n.title) lowerQuery ||
    jsIncludes (jsToLower n.content) lowerQuery ||
    n.tags.any fun tag => jsIncludes (jsToLower tag) lowerQuery

/-- `filteredNotes` from `src/components/Sidebar.tsx`: empty query shows
all; otherwise case-insensitive substring match against title, content or
any tag. -/
def filteredNotes (notes : List Note) (searchQuery : String) : List Note :=
  if searchQuery = "" then notes
  else notes.filter (noteMatches (jsToLower searchQuery))

/-!
Editor tag operations, from `src/components/Editor.tsx` lines 104-116, and
the AI-tag merge from lines 58-64.
-/

/-- `handleTagInput` on Enter: trim, reject empty, reject exact duplicate,
otherwise append. -/
def handleTagInput (tags : List String) (rawValue : String) : List String :=
  let val := jsTrim rawValue
  if val ≠ "" ∧ val ∉ tags then tags ++ [val] else tags

/-- `removeTag`: filter out the exact match. -/
def removeTag (tags : List String) (tagToRemove : String) : List String :=
  tags.filter fun tag => tag ≠ tagToRemove

/-- JavaScript `Array.from(new Set(l))`: deduplicate keeping the first
occurrence of each element. -/
def jsSetDedup (l : List String) : List String :=
  l.foldl (fun acc x => if x ∈ acc then acc else acc ++ [x]) []

/-- The `generate_tags` branch of `handleAIAction`: when the generated list
is nonempty, merge it into the tag set dropping duplicates. -/
def mergeTags (tags generatedTags : List String) : List String :=
  if generatedTags = [] then tags else jsSetDedup (tags ++ generatedTags)

/-!
Text Service Client, from `src/services/gemini.ts`.  The network exchange
(`ai.models.generateContent` and the extraction of `response.text`) is not
repository code; each operation takes the outcome of that exchange as an
explicit `net` oracle argument: `Except.error` when the awaited call
rejects, otherwise the extracted payload (`none` standing for a missing
`response.text`).
-/

/-- `getAIClient`: throws when `process.env.API_KEY` is absent or empty
(JavaScript falsiness of the empty string). -/
def getAIClient (apiKey : Option String) : Except String Unit :=
  match apiKey with
  | none => .error "API Key is missing. Please ensure process.env.API_KEY is available."
  | some k =>
    if k = "" then
      .error "API Key is missing. Please ensure process.env.API_KEY is available."
    else .ok ()

/-- `generateNoteTitle`: empty content short-circuits to the default; any
error (missing key or rejected call) is caught and the default returned;
otherwise the trimmed response text, or the default when it is empty. -/
def generateNoteTitle (apiKey : Option String) (content : String)
    (net : Except String (Option String)) : String :=
  if jsTrim content = "" then "Untitled Note"
  else
    match getAIClient apiKey with
    | .error _ => "Untitled Note"
    | .ok _ =>
      match net with
      | .error _ => "Untitled Note"
      | .ok none => "Untitled Note"
      | .ok (some t) => if jsTrim t = "" then "Untitled Note" else jsTrim t

/-- `generateNoteTags`: empty content short-circuits to `[]`; any error
(missing key, rejected call, or a JSON body that fails to parse) is caught
and `[]` returned; a missing response text yields `[]`; otherwise the
parsed tag list.  The `net` oracle carries the parsed result of the
response body. -/
def generateNoteTags (apiKey : Option String) (content : String)
    (net : Except String (Option (List String))) : List String :=
  if jsTrim content = "" then []
  else
    match getAIClient apiKey with
    | .error _ => []
    | .ok _ =>
      match net with
      | .error _ => []
      | .ok none => []
      | .ok (some l) => l

/-- `processAIAction`: obtains the client first (so a missing credential
propagates), substitutes the full content for an empty selection
(JavaScript `selectedText || content`), rejects whitespace-only input with
"No text to process" before any request, rejects the two non-transform
actions, and otherwise returns the response text (empty when missing) or
propagates the rejection. -/
def processAIAction (apiKey : Option String) (action : AIActionType)
    (content : String) (selectedText : String) (net : Except String String) :
    Except String String :=
  match getAIClient apiKey with
  | .error e => .error e
  | .ok _ =>
    let textToProcess := if selectedText ≠ "" then selectedText else content
    if jsTrim textToProcess = "" then .error "No text to process"
    else
      match action with
      | .summarize | .fix_grammar | .elaborate =>
        match net with
        | .error e => .error e
        | .ok t => .ok t
      | _ => .error "Unknown action"

/-!
Editor AI-result splicing, from `src/components/Editor.tsx` lines 53-102.
The textarea selection offsets are read twice: once before the awaited
call (to extract `selectedText`) and once after it (to splice the result);
`SpliceEnv` carries both reads.  The textarea ref is non-null while the
editor is mounted, which is the situation modelled.
-/

/-- The selection offsets as read before the awaited call (`selStartBefore`,
`selEndBefore`) and as re-read after it (`selStartAfter`, `selEndAfter`). -/
structure SpliceEnv where
  selStartBefore : Nat
  selEndBefore : Nat
  selStartAfter : Nat
  selEndAfter : Nat
deriving Repr, DecidableEq

/-- JavaScript `s.substring(a, b)`: clamp both indices to the length and
swap them when reversed. -/
def jsSubstring (s : String) (a b : Nat) : String :=
  let a' := min a s.length
  let b' := min b s.length
  ⟨(s.data.drop (min a' b')).take (max a' b' - min a' b')⟩

/-- JavaScript `s.substring(a)`. -/
def jsSubstringFrom (s : String) (a : Nat) : String :=
  ⟨s.data.drop (min a s.length)⟩

/-- The `selectedText` captured before the awaited call: empty unless the
two offsets differ. -/
def selectedTextOf (content : String) (env : SpliceEnv) : String :=
  if env.selStartBefore ≠ env.selEndBefore then
    jsSubstring content env.selStartBefore env.selEndBefore
  else ""

/-- Outcome of `handleAIAction` for a text action: the content afterwards
and whether the failure alert was shown. -/
structure HandleResult where
  content : String
  alerted : Bool
deriving Repr, DecidableEq

/-- The text-manipulation path of `handleAIAction` (summarize, fix_grammar,
elaborate): capture the selection, call `processAIAction`, then splice the
result at the re-read offsets, or append/replace when nothing was
selected; any rejection is caught, alerted, and leaves the content
untouched. -/
def handleTextAIAction (apiKey : Option String) (action : AIActionType)
    (content : String) (env : SpliceEnv) (net : Except String String) :
    HandleResult :=
  let selectedText := selectedTextOf content env
  match processAIAction apiKey action content selectedText net with
  | .error _ => { content := content, alerted := true }
  | .ok result =>
    if selectedText ≠ "" then
      { content := jsSubstring content 0 env.selStartAfter ++ result ++
          jsSubstringFrom content env.selEndAfter,
        alerted := false }
    else
      match action with
      | .summarize =>
        { content := content ++ "\n\n### Summary\n" ++ result, alerted := false }
      | _ => { content := result, alerted := false }

/-!
Debounced commit protocol, from `src/components/Editor.tsx` lines 31-51.
The edit buffer holds the transient title/content/tags; the debounce
effect re-arms a 1000 ms timer on every buffer change, and when the timer
fires with the buffer differing from the committed note, `handleSave`
writes the buffer to the store with `updatedAt = Date.now()`.
-/

/-- The transient edit buffer (title, content, tags). -/
structure EditBuffer where
  title : String
  content : String
  tags : List String
deriving Repr, DecidableEq

/-- The buffer of a committed note. -/
def bufferOf (n : Note) : EditBuffer :=
  { title := n.title, content := n.content, tags := n.tags }

/-- The dirty check of the debounce effect: `title !== note.title ||
content !== note.content || JSON.stringify(tags) !== JSON.stringify(note.tags)`
(stringify equality on string arrays coincides with list equality). -/
def bufferDirty (b : EditBuffer) (n : Note) : Bool :=
  b.title ≠ n.title || b.content ≠ n.content || b.tags ≠ n.tags

/-- `handleSave`: spread the note, overwrite the edited fields, stamp
`updatedAt` with the current time. -/
def handleSave (n : Note) (b : EditBuffer) (now : Nat) : Note :=
  { n with
    title := b.title
    content := b.content
    tags := b.tags
    updatedAt := now }

/-- State of one mounted editor session: the committed note (the `note`
prop as seen by the latest effect closure), the edit buffer, the pending
timer deadline if armed, and the commits performed so far (in order). -/
structure DebounceState where
  note : Note
  buffer : EditBuffer
  deadline : Option Nat
  commits : List Note
deriving Repr, DecidableEq

/-- Let an armed timer whose deadline has passed fire: commit when dirty,
otherwise do nothing; either way the timer is spent. -/
def fireIfDue (s : DebounceState) (now : Nat) : DebounceState :=
  match s.deadline with
  | none => s
  | some d =>
    if d ≤ now then
      if bufferDirty s.buffer s.note then
        let committed := handleSave s.note s.buffer d
        { note := committed, buffer := s.buffer, deadline := none,
          commits := s.commits ++ [committed] }
      else { s with deadline := none }
    else s

/-- One edit event at time `t` setting the buffer to `b`: any due timer
fires first, then the effect cleanup cancels the pending timer and re-arms
it 1000 ms out. -/
def stepEdit (s : DebounceState) (t : Nat) (b : EditBuffer) : DebounceState :=
  let s' := fireIfDue s t
  { s' with buffer := b, deadline := some (t + 1000) }

/-- After the last edit nothing cancels the timer: it fires at its
deadline. -/
def flushTimer (s : DebounceState) : DebounceState :=
  match s.deadline with
  | none => s
  | some d => fireIfDue s d

/-- Run a whole editing session: mount at time 0 over note `n` (the mount
effect run arms a timer too), apply the timed edits in order, then let the
final timer fire. -/
def runDebounce (n : Note) (edits : List (Nat × EditBuffer)) : DebounceState :=
  flushTimer
    (edits.foldl (fun s e => stepEdit s e.1 e.2)
      { note := n, buffer := bufferOf n, deadline := some 1000, commits := [] })

/-- The commits produced by an editing session. -/
def debounceCommits (n : Note) (edits : List (Nat × EditBuffer)) : List Note :=
  (runDebounce n edits).commits

/-- Consecutive edits are in strictly increasing time order and less than
1000 ms apart. -/
def gapOK (a b : Nat × EditBuffer) : Prop :=
  a.1 < b.1 ∧ b.1 < a.1 + 1000

/-!
Claim theorems.
-/

/-- C1: the claim states that `load()` returns the deserialised collection
when the persisted value is parseable, the seeded welcome note when it is
absent **or unparseable**, and never propagates an exception.  The code's
initialiser (`src/App.tsx` line 22) runs `JSON.parse(saved)` unguarded, so
a malformed persisted value (here the single character `{`) makes the
parse throw and the exception propagate — it neither yields the seed nor
is caught.  The absent case does yield the seed, as the claim says. -/
theorem C1_load_malformed :
    loadNotes 0 none = Except.ok (INITIAL_NOTES 0) ∧
    loadNotes 0 (some "\x7b") =
      Except.error "SyntaxError: unexpected token in JSON" := by
  exact ⟨rfl, rfl⟩

/-- C8: persisting a collection of well-formed notes and loading it back
yields an equal collection — same identifiers, fields and order.  The
well-formedness bound (printable characters plus newline, tab,
carriage-return in every string field) is where the serialisation model is
character-exact to `JSON.stringify`. -/
theorem C8_roundtrip (now : Nat) (l : List Note) (h : wellFormedNotes l = true) :
    loadNotes now (persistNotes l) = Except.ok l := by
  simp [persistNotes, loadNotes, parseNotes_stringifyNotes]

/-- C8 witness: a concrete two-note collection containing quotes, newlines
and backslashes survives the round trip. -/
theorem C8_roundtrip_witness :
    loadNotes 0 (persistNotes
      [{ id := "1", title := "a\"b", content := "x\ny", tags := ["t1", "t2"],
         createdAt := 5, updatedAt := 7 },
       { id := "2", title := "", content := "p\\q", tags := [],
         createdAt := 12, updatedAt := 340 }]) =
    Except.ok
      [{ id := "1", title := "a\"b", content := "x\ny", tags := ["t1", "t2"],
         createdAt := 5, updatedAt := 7 },
       { id := "2", title := "", content := "p\\q", tags := [],
         createdAt := 12, updatedAt := 340 }] :=
  C8_roundtrip 0 _ (by decide)

/-- C4: deleting a note removes exactly the entries with that identifier
(order preserved); when the deleted note was the selected one the
selection moves to the first note of the resulting collection (none when
it is empty), and otherwise the selection is untouched. -/
theorem C4_delete_selection (notes : List Note) (activeNoteId : Option String)
    (id : String) :
    (∀ n, n ∈ (deleteNote notes activeNoteId id).1 ↔ n ∈ notes ∧ n.id ≠ id) ∧
    (deleteNote notes activeNoteId id).1.Sublist notes ∧
    (activeNoteId = some id →
      (deleteNote notes activeNoteId id).2 =
        (deleteNote notes activeNoteId id).1.head?.map Note.id) ∧
    (activeNoteId ≠ some id → (deleteNote notes activeNoteId id).2 = activeNoteId) := by
  refine ⟨?_, ?_, ?_, ?_⟩
  · intro n; simp [deleteNote]
  · exact List.filter_sublist notes
  · intro h; simp [deleteNote, h]
  · intro h; simp [deleteNote, h]

/-- C4 witness: deleting the selected first of two notes moves the
selection to the remaining note; instantiates the theorem at that input. -/
theorem C4_delete_selection_witness :
    (∀ n, n ∈ (deleteNote [⟨"1", "", "", [], 0, 0⟩, ⟨"2", "", "", [], 0, 0⟩]
        (some "1") "1").1 ↔
      n ∈ [⟨"1", "", "", [], 0, 0⟩, ⟨"2", "", "", [], 0, 0⟩] ∧ n.id ≠ "1") ∧
    (deleteNote [⟨"1", "", "", [], 0, 0⟩, ⟨"2", "", "", [], 0, 0⟩]
        (some "1") "1").1.Sublist
      [⟨"1", "", "", [], 0, 0⟩, ⟨"2", "", "", [], 0, 0⟩] ∧
    (some "1" = some "1" →
      (deleteNote [⟨"1", "", "", [], 0, 0⟩, ⟨"2", "", "", [], 0, 0⟩]
          (some "1") "1").2 =
        (deleteNote [⟨"1", "", "", [], 0, 0⟩, ⟨"2", "", "", [], 0, 0⟩]
            (some "1") "1").1.head?.map Note.id) ∧
    (some "1" ≠ some "1" →
      (deleteNote [⟨"1", "", "", [], 0, 0⟩, ⟨"2", "", "", [], 0, 0⟩]
          (some "1") "1").2 = some "1") :=
  C4_delete_selection [⟨"1", "", "", [], 0, 0⟩, ⟨"2", "", "", [], 0, 0⟩]
    (some "1") "1"

theorem isPrefixList_iff (needle : List Char) : ∀ haystack : List Char,
    isPrefixList needle haystack = true ↔ ∃ post, haystack = needle ++ post := by
  induction needle with
  | nil =>
    intro h
    simp [isPrefixList]
  | cons c cs ih =>
    intro h
    cases h with
    | nil => simp [isPrefixList]
    | cons d ds =>
      rw [isPrefixList]
      simp only [Bool.and_eq_true, decide_eq_true_eq, ih ds]
      constructor
      · rintro ⟨hcd, post, hpost⟩
        exact ⟨post, by simp [hcd, hpost]⟩
      · rintro ⟨post, hpost⟩
        rw [List.cons_append] at hpost
        injection hpost with h1 h2
        exact ⟨h1.symm, post, h2⟩

theorem hasInfix_iff (needle : List Char) : ∀ haystack : List Char,
    hasInfix haystack needle = true ↔
      ∃ pre post, haystack = pre ++ (needle ++ post) := by
  intro haystack
  induction haystack with
  | nil =>
    rw [hasInfix, isPrefixList_iff]
    constructor
    · rintro ⟨post, hp⟩
      exact ⟨[], post, by simpa using hp⟩
    · rintro ⟨pre, post, hp⟩
      rcases List.append_eq_nil.mp hp.symm with ⟨h1, h2⟩
      rcases List.append_eq_nil.mp h2 with ⟨h3, h4⟩
      exact ⟨[], by simp [h3, h4]⟩
  | cons c t ih =>
    rw [hasInfix, Bool.or_eq_true, isPrefixList_iff, ih]
    constructor
    · rintro (⟨post, hp⟩ | ⟨pre, post, hp⟩)
      · exact ⟨[], post, by simpa using hp⟩
      · exact ⟨c :: pre, post, by simp [hp]⟩
    · rintro ⟨pre, post, hp⟩
      cases pre with
      | nil => exact Or.inl ⟨post, by simpa using hp⟩
      | cons p ps =>
        rw [List.cons_append] at hp
        injection hp with h1 h2
        exact Or.inr ⟨ps, post, h2⟩

/-- The spec-side match predicate for C7: the lowercased query occurs as a
contiguous substring of the lowercased title, content, or some tag. -/
def noteMatchesSpec (q : String) (n : Note) : Prop :=
  (∃ pre post, (jsToLower n.title).data = pre ++ ((jsToLower q).data ++ post)) ∨
  (∃ pre post, (jsToLower n.content).data = pre ++ ((jsToLower q).data ++ post)) ∨
  (∃ tag, tag ∈ n.tags ∧
    ∃ pre post, (jsToLower tag).data = pre ++ ((jsToLower q).data ++ post))

theorem noteMatches_iff_spec (q : String) (n : Note) :
    noteMatches (jsToLower q) n = true ↔ noteMatchesSpec q n := by
  rw [noteMatches, noteMatchesSpec]
  simp only [Bool.or_eq_true, jsIncludes, hasInfix_iff, List.any_eq_true]
  exact or_assoc

/-- C7: the filtered list is the whole collection for the empty query, and
otherwise consists (in collection order, witnessed by the sublist
property) of exactly the notes whose lowercased title, content, or some
tag contains the lowercased query as a contiguous substring. -/
theorem C7_filter (notes : List Note) (q : String) :
    (q = "" → filteredNotes notes q = notes) ∧
    (filteredNotes notes q).Sublist notes ∧
    (∀ n, n ∈ filteredNotes notes q ↔ n ∈ notes ∧ (q = "" ∨ noteMatchesSpec q n)) := by
  refine ⟨fun h => by simp [filteredNotes, h], ?_, ?_⟩
  · by_cases h : q = ""
    · simp [filteredNotes, h]
    · simp only [filteredNotes, if_neg h]
      exact List.filter_sublist notes
  · intro n
    by_cases h : q = ""
    · simp [filteredNotes, h]
    · simp [filteredNotes, if_neg h, List.mem_filter, noteMatches_iff_spec, h]

/-- C7 witness: the spec's own example — notes Alpha (tag `x`) and Beta
(content `alpha inside`) with query `ALPHA`; instantiates the theorem. -/
theorem C7_filter_witness :
    ("ALPHA" = "" →
      filteredNotes [⟨"1", "Alpha", "", ["x"], 0, 0⟩,
        ⟨"2", "Beta", "alpha inside", [], 0, 0⟩] "ALPHA" =
        [⟨"1", "Alpha", "", ["x"], 0, 0⟩, ⟨"2", "Beta", "alpha inside", [], 0, 0⟩]) ∧
    (filteredNotes [⟨"1", "Alpha", "", ["x"], 0, 0⟩,
        ⟨"2", "Beta", "alpha inside", [], 0, 0⟩] "ALPHA").Sublist
      [⟨"1", "Alpha", "", ["x"], 0, 0⟩, ⟨"2", "Beta", "alpha inside", [], 0, 0⟩] ∧
    (∀ n, n ∈ filteredNotes [⟨"1", "Alpha", "", ["x"], 0, 0⟩,
        ⟨"2", "Beta", "alpha inside", [], 0, 0⟩] "ALPHA" ↔
      n ∈ [⟨"1", "Alpha", "", ["x"], 0, 0⟩, ⟨"2", "Beta", "alpha inside", [], 0, 0⟩] ∧
        ("ALPHA" = "" ∨ noteMatchesSpec "ALPHA" n)) :=
  C7_filter [⟨"1", "Alpha", "", ["x"], 0, 0⟩, ⟨"2", "Beta", "alpha inside", [], 0, 0⟩]
    "ALPHA"

theorem jsSetDedup_go_nodup (l : List String) : ∀ acc : List String, acc.Nodup →
    (l.foldl (fun acc x => if x ∈ acc then acc else acc ++ [x]) acc).Nodup := by
  induction l with
  | nil => intro acc hacc; simpa using hacc
  | cons x xs ih =>
    intro acc hacc
    rw [List.foldl_cons]
    by_cases hx : x ∈ acc
    · simpa [hx] using ih acc hacc
    · have : (acc ++ [x]).Nodup := by
        simp [List.nodup_append, hacc, hx]
      simpa [hx] using ih (acc ++ [x]) this

theorem jsSetDedup_nodup (l : List String) : (jsSetDedup l).Nodup :=
  jsSetDedup_go_nodup l [] List.nodup_nil

/-- C6: every tag operation of the editor preserves the no-duplicates
invariant of the tag set, and the claimed no-op behaviours hold:
add-on-enter trims, rejects an empty result, is a no-op on an exact
duplicate and otherwise appends; remove filters the exact match and is a
no-op on a nonexistent tag; the AI-tag merge always produces a
duplicate-free set. -/
theorem C6_tag_invariants :
    (∀ (tags : List String) (raw : String), tags.Nodup →
      (handleTagInput tags raw).Nodup) ∧
    (∀ (tags : List String) (raw : String), jsTrim raw ∈ tags →
      handleTagInput tags raw = tags) ∧
    (∀ (tags : List String) (raw : String), jsTrim raw = "" →
      handleTagInput tags raw = tags) ∧
    (∀ (tags : List String) (raw : String), jsTrim raw ≠ "" → jsTrim raw ∉ tags →
      handleTagInput tags raw = tags ++ [jsTrim raw]) ∧
    (∀ (tags : List String) (t : String), tags.Nodup → (removeTag tags t).Nodup) ∧
    (∀ (tags : List String) (t : String), t ∉ tags → removeTag tags t = tags) ∧
    (∀ (tags gen : List String), tags.Nodup → (mergeTags tags gen).Nodup) := by
  refine ⟨?_, ?_, ?_, ?_, ?_, ?_, ?_⟩
  · intro tags raw hnd
    rw [handleTagInput]
    by_cases h1 : jsTrim raw ≠ "" ∧ jsTrim raw ∉ tags
    · simp only [if_pos h1]
      simp [List.nodup_append, hnd, h1.2]
    · simpa [if_neg h1] using hnd
  · intro tags raw hmem
    rw [handleTagInput]
    simp [hmem]
  · intro tags raw hempty
    rw [handleTagInput]
    simp [hempty]
  · intro tags raw hne hnmem
    rw [handleTagInput]
    simp [hne, hnmem]
  · intro tags t hnd
    exact hnd.filter _
  · intro tags t hnmem
    rw [removeTag]
    rw [List.filter_eq_self]
    intro a ha
    simp only [decide_eq_true_eq]
    exact fun he => hnmem (he ▸ ha)
  · intro tags gen hnd
    rw [mergeTags]
    by_cases hg : gen = []
    · simpa [hg] using hnd
    · simp only [if_neg hg]
      exact jsSetDedup_nodup _

/-- C6 witness: instantiates the theorem and exercises each conjunct on a
concrete tag set. -/
theorem C6_tag_invariants_witness :
    (handleTagInput ["a", "b"] " b ").Nodup ∧
    handleTagInput ["a", "b"] " b " = ["a", "b"] ∧
    handleTagInput ["a", "b"] "  " = ["a", "b"] ∧
    handleTagInput ["a", "b"] " c " = ["a", "b", "c"] ∧
    (removeTag ["a", "b"] "b").Nodup ∧
    removeTag ["a", "b"] "z" = ["a", "b"] ∧
    (mergeTags ["a", "b"] ["b", "c", "c"]).Nodup := by
  obtain ⟨h1, h2, h3, h4, h5, h6, h7⟩ := C6_tag_invariants
  refine ⟨h1 ["a", "b"] " b " (by decide), h2 ["a", "b"] " b " (by decide),
    h3 ["a", "b"] "  " (by decide), ?_, h5 ["a", "b"] "b" (by decide),
    h6 ["a", "b"] "z" (by decide), h7 ["a", "b"] ["b", "c", "c"] (by decide)⟩
  have := h4 ["a", "b"] " c " (by decide) (by decide)
  simpa using this

theorem processAIAction_net_error (apiKey : Option String) (action : AIActionType)
    (content sel e : String) (r : String) :
    processAIAction apiKey action content sel (Except.error e) ≠ Except.ok r := by
  cases action <;> cases hk : getAIClient apiKey <;>
    simp [processAIAction, hk] <;> (try split) <;> (try split) <;> simp

/-- C9: when the Text Service call for a user-invoked transform rejects,
the failure is surfaced (the alert fires) and the edit buffer's content is
bit-for-bit unchanged.  (The model's `net = Except.error e` is exactly the
rejected-call case; the conclusion holds for every action kind.) -/
theorem C9_failure_no_mutation (apiKey : Option String) (action : AIActionType)
    (content : String) (env : SpliceEnv) (e : String) :
    handleTextAIAction apiKey action content env (Except.error e) =
      { content := content, alerted := true } := by
  rw [handleTextAIAction]
  cases hp : processAIAction apiKey action content (selectedTextOf content env)
      (Except.error e) with
  | error m => rfl
  | ok r => exact absurd hp (processAIAction_net_error _ _ _ _ _ _)

/-- C10: with a configured credential, a transform whose selected span (or,
with no selection, whole content) is whitespace-only fails with exactly
"No text to process"; the outcome is independent of the network oracle
(universally quantified `net`), i.e. no request is consulted, and the
caller leaves the content unchanged (showing only the failure alert). -/
theorem C10_empty_text (k : String) (hk : k ≠ "") (action : AIActionType)
    (hact : action = .summarize ∨ action = .fix_grammar ∨ action = .elaborate)
    (content : String) (env : SpliceEnv) (net : Except String String)
    (hempty : jsTrim (if selectedTextOf content env ≠ ""
      then selectedTextOf content env else content) = "") :
    processAIAction (some k) action content (selectedTextOf content env) net =
      Except.error "No text to process" ∧
    handleTextAIAction (some k) action content env net =
      { content := content, alerted := true } := by
  have hempty2 : jsTrim (if selectedTextOf content env = "" then content
      else selectedTextOf content env) = "" := by
    by_cases hs : selectedTextOf content env = ""
    · simpa [hs] using hempty
    · simpa [hs] using hempty
  have hp : processAIAction (some k) action content (selectedTextOf content env) net =
      Except.error "No text to process" := by
    rcases hact with h | h | h <;> subst h <;>
      simp [processAIAction, getAIClient, hk, hempty2]
  refine ⟨hp, ?_⟩
  rw [handleTextAIAction, hp]

/-- C10 witness: whitespace-only content with no selection under a present
credential; instantiates the theorem. -/
theorem C10_empty_text_witness :
    processAIAction (some "key") .summarize "   " (selectedTextOf "   " ⟨0, 0, 0, 0⟩)
      (Except.ok "reply") = Except.error "No text to process" ∧
    handleTextAIAction (some "key") .summarize "   " ⟨0, 0, 0, 0⟩ (Except.ok "reply") =
      { content := "   ", alerted := true } :=
  C10_empty_text "key" (by decide) .summarize (Or.inl rfl) "   " ⟨0, 0, 0, 0⟩
    (Except.ok "reply") (by decide)

/-- C3 counterexample: with the credential missing and non-empty content,
`generateNoteTitle` silently returns the default title and
`generateNoteTags` silently returns the empty list — the catch blocks in
`src/services/gemini.ts` swallow the `getAIClient` throw — contradicting
the claim that every Text Service operation fails with a clear error at
first use.  (The network oracle is irrelevant: the call never happens.) -/
theorem C3_counterexample :
    generateNoteTitle none "hello" (Except.error "network unreachable") =
      "Untitled Note" ∧
    generateNoteTags none "hello" (Except.error "network unreachable") = [] := by
  exact ⟨rfl, rfl⟩

/-- C3 amended: with the API credential missing (absent or empty), the
three user-invoked transforms running through `processAIAction` do fail
fast with the clear credential error, for any action, content, selection
and network outcome; but `generate_title` and `generate_tags` instead
swallow the failure and return the default title / empty list. -/
theorem C3_missing_key_amended (apiKey : Option String)
    (hmissing : apiKey = none ∨ apiKey = some "") (action : AIActionType)
    (content sel : String) (net : Except String String)
    (netT : Except String (Option String))
    (netG : Except String (Option (List String))) :
    processAIAction apiKey action content sel net =
      Except.error "API Key is missing. Please ensure process.env.API_KEY is available." ∧
    generateNoteTitle apiKey content netT = "Untitled Note" ∧
    generateNoteTags apiKey content netG = [] := by
  have hclient : getAIClient apiKey =
      Except.error "API Key is missing. Please ensure process.env.API_KEY is available." := by
    rcases hmissing with h | h <;> subst h <;> simp [getAIClient]
  refine ⟨?_, ?_, ?_⟩
  · cases action <;> simp [processAIAction, hclient]
  · rw [generateNoteTitle.eq_def, hclient]
    split <;> rfl
  · rw [generateNoteTags.eq_def, hclient]
    split <;> rfl

/-- C3 amended witness: instantiates the amended theorem with an absent
credential, the summarize transform and non-empty content. -/
theorem C3_missing_key_amended_witness :
    processAIAction none .summarize "hello" "" (Except.ok "reply") =
      Except.error "API Key is missing. Please ensure process.env.API_KEY is available." ∧
    generateNoteTitle none "hello" (Except.ok (some "A title")) = "Untitled Note" ∧
    generateNoteTags none "hello" (Except.ok (some ["t"])) = [] :=
  C3_missing_key_amended none (Or.inl rfl) .summarize "hello" "" (Except.ok "reply")
    (Except.ok (some "A title")) (Except.ok (some ["t"]))

theorem string_data_append (s t : String) : (s ++ t).data = s.data ++ t.data := by
  cases s; cases t; rfl

theorem jsSubstring_zero (s : String) (a : Nat) (ha : a ≤ s.length) :
    (jsSubstring s 0 a).data = s.data.take a := by
  rw [jsSubstring]
  simp [Nat.min_eq_left ha, List.drop_zero]

theorem jsSubstringFrom_drop (s : String) (a : Nat) (ha : a ≤ s.length) :
    (jsSubstringFrom s a).data = s.data.drop a := by
  rw [jsSubstringFrom]
  simp [Nat.min_eq_left ha]

theorem processAIAction_ok (k : String) (hk : k ≠ "") (action : AIActionType)
    (hact : action = .summarize ∨ action = .fix_grammar ∨ action = .elaborate)
    (content sel result : String)
    (htrim : jsTrim (if sel ≠ "" then sel else content) ≠ "") :
    processAIAction (some k) action content sel (Except.ok result) =
      Except.ok result := by
  have htrim2 : ¬jsTrim (if sel = "" then content else sel) = "" := by
    by_cases hs : sel = ""
    · simpa [hs] using htrim
    · simpa [hs] using htrim
  rcases hact with h | h | h <;> subst h <;>
    simp [processAIAction, getAIClient, hk, htrim2]

/-- C2 counterexample: the claim says the result replaces the span at the
offsets captured **before** the asynchronous call; the code
(`src/components/Editor.tsx` line 85) re-reads `selectionStart` and
`selectionEnd` after the await.  With content `abcdef`, selection `[0,3)`
captured before the call, selection `[1,2)` at splice time and result
`XY`, the claim demands `XYdef` but the code produces `aXYcdef`. -/
theorem C2_counterexample :
    (handleTextAIAction (some "k") .fix_grammar "abcdef" ⟨0, 3, 1, 2⟩
      (Except.ok "XY")).content = "aXYcdef" ∧
    ("aXYcdef" : String) ≠ "XYdef" := by
  exact ⟨rfl, by decide⟩

/-- C2 amended: for the three transforms, when a non-empty, non-whitespace
sub-span was selected at request time, the returned text replaces exactly
the characters between the offsets as re-read after the asynchronous call
(equal to the captured ones whenever the selection did not change
mid-flight), preserving the prefix before the re-read start and the suffix
from the re-read end; with no sub-span selected, summarize appends the
labelled summary section and the other transforms replace the whole
content. -/
theorem C2_splice_amended (k : String) (hk : k ≠ "") (action : AIActionType)
    (hact : action = .summarize ∨ action = .fix_grammar ∨ action = .elaborate)
    (content : String) (env : SpliceEnv) (result : String) :
    (selectedTextOf content env ≠ "" →
      jsTrim (selectedTextOf content env) ≠ "" →
      env.selStartAfter ≤ env.selEndAfter → env.selEndAfter ≤ content.length →
      (handleTextAIAction (some k) action content env (Except.ok result)).content.data =
        content.data.take env.selStartAfter ++ result.data ++
          content.data.drop env.selEndAfter) ∧
    (selectedTextOf content env = "" → jsTrim content ≠ "" → action = .summarize →
      (handleTextAIAction (some k) action content env (Except.ok result)).content =
        content ++ "\n\n### Summary\n" ++ result) ∧
    (selectedTextOf content env = "" → jsTrim content ≠ "" →
      (action = .fix_grammar ∨ action = .elaborate) →
      (handleTextAIAction (some k) action content env (Except.ok result)).content =
        result) := by
  refine ⟨?_, ?_, ?_⟩
  · intro hsel htrim hse hlen
    have hok := processAIAction_ok k hk action hact content
      (selectedTextOf content env) result (by simpa [hsel] using htrim)
    rw [handleTextAIAction, hok]
    simp only [if_pos hsel]
    rw [string_data_append, string_data_append,
      jsSubstring_zero content env.selStartAfter (le_trans hse hlen),
      jsSubstringFrom_drop content env.selEndAfter hlen]
  · intro hsel htrim hsum
    subst hsum
    have hok := processAIAction_ok k hk .summarize (Or.inl rfl) content
      (selectedTextOf content env) result (by simpa [hsel] using htrim)
    rw [handleTextAIAction, hok]
    simp [hsel]
  · intro hsel htrim hother
    have hok := processAIAction_ok k hk action hact content
      (selectedTextOf content env) result (by simpa [hsel] using htrim)
    rw [handleTextAIAction, hok]
    rcases hother with h | h <;> subst h <;> simp [hsel]

/-- C2 amended witness: a selection `[1,3)` in `abcdef` unchanged across
the call is replaced in place; with no selection, summarize appends and
elaborate replaces; instantiates the amended theorem three times over the
same statement shape at concrete inputs. -/
theorem C2_splice_amended_witness :
    ((handleTextAIAction (some "k") .fix_grammar "abcdef" ⟨1, 3, 1, 3⟩
        (Except.ok "XY")).content.data =
      "abcdef".data.take 1 ++ "XY".data ++ "abcdef".data.drop 3) ∧
    ((handleTextAIAction (some "k") .summarize "abc" ⟨0, 0, 0, 0⟩
        (Except.ok "S")).content = "abc" ++ "\n\n### Summary\n" ++ "S") ∧
    ((handleTextAIAction (some "k") .elaborate "abc" ⟨0, 0, 0, 0⟩
        (Except.ok "R")).content = "R") := by
  refine ⟨?_, ?_, ?_⟩
  · exact (C2_splice_amended "k" (by decide) .fix_grammar (Or.inr (Or.inl rfl))
      "abcdef" ⟨1, 3, 1, 3⟩ "XY").1 (by decide) (by decide) (by decide) (by decide)
  · exact (C2_splice_amended "k" (by decide) .summarize (Or.inl rfl)
      "abc" ⟨0, 0, 0, 0⟩ "S").2.1 (by decide) (by decide) rfl
  · exact (C2_splice_amended "k" (by decide) .elaborate (Or.inr (Or.inr rfl))
      "abc" ⟨0, 0, 0, 0⟩ "R").2.2 (by decide) (by decide) (Or.inr rfl)

theorem foldl_stepEdit_quiet (rest : List (Nat × EditBuffer)) :
    ∀ (s : DebounceState) (tp : Nat),
      s.deadline = some (tp + 1000) →
      List.Chain' gapOK ((tp, s.buffer) :: rest) →
      rest.foldl (fun st e => stepEdit st e.1 e.2) s =
        { note := s.note,
          buffer := (rest.getLastD (tp, s.buffer)).2,
          deadline := some ((rest.getLastD (tp, s.buffer)).1 + 1000),
          commits := s.commits } := by
  induction rest with
  | nil =>
    intro s tp hd _
    cases s
    simp_all [List.getLastD]
  | cons e rest ih =>
    intro s tp hd hchain
    obtain ⟨hgap, hchain'⟩ := List.chain'_cons.mp hchain
    have hfire : fireIfDue s e.1 = s := by
      rw [fireIfDue.eq_def, hd]
      simp only [if_neg (by exact Nat.not_le.mpr hgap.2)]
    have hstep : stepEdit s e.1 e.2 =
        { s with buffer := e.2, deadline := some (e.1 + 1000) } := by
      rw [stepEdit, hfire]
    rw [List.foldl_cons, hstep]
    have hch2 : List.Chain' gapOK ((e.1,
        ({ s with buffer := e.2, deadline := some (e.1 + 1000) } :
          DebounceState).buffer) :: rest) := by
      simpa using hchain'
    rw [ih _ e.1 rfl hch2]
    cases rest with
    | nil => simp [List.getLastD]
    | cons r rs =>
      refine congrArg
        (fun p : Nat × EditBuffer =>
          DebounceState.mk s.note p.2 (some (p.1 + 1000)) s.commits) ?_
      show (r :: rs).getLastD e = (r :: rs).getLastD (tp, s.buffer)
      rfl

/-- C5 counterexample: the claim says every sequence of N ≥ 1 edits inside
the 1000 ms window produces exactly one commit; but the debounce callback
(`src/components/Editor.tsx` line 33) checks the buffer against the
committed note before saving, so a sequence whose net effect restores the
committed state — here typing `a` at t=1 and reverting at t=2 — produces
zero commits, although both edits satisfy the window hypothesis. -/
theorem C5_counterexample :
    gapOK (1, ⟨"T", "a", []⟩) (2, ⟨"T", "x", []⟩) ∧
    debounceCommits ⟨"1", "T", "x", [], 0, 0⟩
      [(1, ⟨"T", "a", []⟩), (2, ⟨"T", "x", []⟩)] = [] := by
  exact ⟨⟨by decide, by decide⟩, rfl⟩

/-- C5 amended: for a sequence of N ≥ 1 edits each within 1000 ms of the
previous, no commit happens while edits keep arriving; after 1000 ms of
quiet exactly one commit occurs when the final buffer differs from the
committed note — written at the last edit time + 1000 with `updatedAt`
stamped at that commit time — and zero commits occur when the final buffer
equals the committed note (the dirty check fails). -/
theorem C5_debounce_amended (n : Note) (t1 : Nat) (b1 : EditBuffer)
    (rest : List (Nat × EditBuffer))
    (hchain : List.Chain' gapOK ((t1, b1) :: rest)) :
    debounceCommits n ((t1, b1) :: rest) =
      (if bufferDirty (rest.getLastD (t1, b1)).2 n
       then [handleSave n (rest.getLastD (t1, b1)).2 ((rest.getLastD (t1, b1)).1 + 1000)]
       else []) := by
  rw [debounceCommits, runDebounce, List.foldl_cons]
  have hclean : bufferDirty (bufferOf n) n = false := by
    simp [bufferDirty, bufferOf]
  have hstep1 : stepEdit
      { note := n, buffer := bufferOf n, deadline := some 1000, commits := [] } t1 b1 =
      { note := n, buffer := b1, deadline := some (t1 + 1000), commits := [] } := by
    rw [stepEdit, fireIfDue.eq_def]
    by_cases h : 1000 ≤ t1
    · simp [h, hclean]
    · simp [h]
  rw [hstep1]
  have hch : List.Chain' gapOK ((t1,
      ({ note := n, buffer := b1, deadline := some (t1 + 1000), commits := [] } :
        DebounceState).buffer) :: rest) := by
    simpa using hchain
  rw [foldl_stepEdit_quiet rest _ t1 rfl hch]
  simp only [flushTimer.eq_def, fireIfDue.eq_def]
  by_cases hdirty : bufferDirty (rest.getLast?.getD (t1, b1)).2 n = true
  · simp [hdirty, handleSave]
  · simp [hdirty, handleSave]

/-- C5 amended witness: a single dirty edit at t=1 commits once at t=1001
with `updatedAt` = 1001; instantiates the amended theorem. -/
theorem C5_debounce_amended_witness :
    debounceCommits ⟨"1", "T", "x", [], 0, 0⟩ [(1, ⟨"T", "a", []⟩)] =
      [⟨"1", "T", "a", [], 0, 1001⟩] := by
  have h := C5_debounce_amended ⟨"1", "T", "x", [], 0, 0⟩ 1 ⟨"T", "a", []⟩ []
    (by simp)
  simpa [handleSave] using h
